import Mathlib

/-!
Shallow embedding of the `backtest` Go package (exchange.go, portfolio.go,
statistic.go) and proofs about its Portfolio, Exchange and Statistic
components.

Monetary amounts are modelled as exact rationals (`ℚ`): the Go code routes
monetary arithmetic through `shopspring/decimal` (exact decimal add/sub/mul,
explicit rounding), which the rational model captures; risk ratios go through
`ℝ` because they take a square root.
-/

set_option autoImplicit false

namespace Backtest

/-! ### Decimal rounding (`shopspring/decimal` `Round`) -/

/-- Round a rational to the nearest integer, halves away from zero
(the rounding mode of `decimal.Round`). -/
def roundHalfAway (x : ℚ) : ℤ :=
  if 0 ≤ x then ⌊x + 1/2⌋ else -⌊-x + 1/2⌋

/-- `decimal.Round(dp)`: round to `dp` decimal places, halves away from zero. -/
def roundDec (dp : ℕ) (x : ℚ) : ℚ :=
  (roundHalfAway (x * 10 ^ dp) : ℚ) / 10 ^ dp

/-- Modelled from the spec: the policy precision constant `DP` (its defining
declaration is not under src/; the spec fixes "a fixed number of decimal
places (policy constant, e.g. 4)", and src/ uses 4 wherever the precision is
inlined: `Round(4)` in `Portfolio.Value`, `10000` in
`Exchange.calculateCommission`). -/
def DP : ℕ := 4

/-! ### Events and the data feed -/

/-- A data event: one timestamped price observation for a symbol
(`DataEventHandler` with `GetTime`, `GetSymbol`, `LatestPrice`). -/
structure DataEvent where
  time : ℤ
  symbol : String
  price : ℚ
deriving DecidableEq

/-- The data feed (`DataHandler`): `Latest(symbol)` yields the latest known
data event for the symbol, or `none` when the feed has none (a `nil`
interface value in Go). -/
structure DataHandler where
  latest : String → Option DataEvent

/-- A signal event (`SignalEvent`): direction is a string, `""` meaning no
direction, the strategy sets `"buy"` or `"sell"`. -/
structure Signal where
  time : ℤ
  symbol : String
  direction : String
deriving DecidableEq

/-- An order event (`Order`). -/
structure Order where
  time : ℤ
  symbol : String
  direction : String
  qty : ℚ
  orderType : String
  limit : ℚ
deriving DecidableEq

/-- A fill event (`Fill`), as built by `Exchange.ExecuteOrder`. -/
structure Fill where
  time : ℤ
  symbol : String
  exchange : String
  qty : ℚ
  price : ℚ
  direction : String
  commission : ℚ
  exchangeFee : ℚ
  cost : ℚ
deriving DecidableEq

/-- Modelled from the spec: `FillEvent.NetValue` (the method's definition is
not under src/): the net cash impact of a fill is `price×qty+cost`. -/
def Fill.NetValue (f : Fill) : ℚ :=
  f.price * f.qty + f.cost

/-! ### Exchange (exchange.go) -/

/-- `Exchange`: a basic execution handler. -/
structure Exchange where
  symbol : String
  exchangeFee : ℚ
  commissionRate : ℚ
deriving DecidableEq

/-- `Exchange.calculateCommission`:
`math.Floor(qty*price*comRate*10000) / 10000`. -/
def Exchange.calculateCommission (e : Exchange) (qty price : ℚ) : ℚ :=
  (⌊qty * price * e.commissionRate * 10000⌋ : ℚ) / 10000

/-- `Exchange.calculateExchangeFee`: the fixed per-venue fee. -/
def Exchange.calculateExchangeFee (e : Exchange) : ℚ :=
  e.exchangeFee

/-- `Exchange.calculateCost`: commission + fee. -/
def Exchange.calculateCost (_e : Exchange) (commission fee : ℚ) : ℚ :=
  commission + fee

/-- The errors the spec's taxonomy assigns to execution. -/
inductive ExecError where
  | noPriceData
deriving DecidableEq

/-- Outcome of `ExecuteOrder`: in Go the function returns `(*Fill, error)`;
`crash` marks the run-time nil dereference of `latest.LatestPrice()` when the
feed holds no data event for the symbol. -/
inductive ExecResult where
  | crash
  | success (f : Fill) (err : Option ExecError)
deriving DecidableEq

/-- Whether an `ExecResult` is a return with a non-nil error. -/
def ExecResult.isErr : ExecResult → Bool
  | .success _ (some _) => true
  | _ => false

/-- The `switch order.GetDirection()` mapping in `ExecuteOrder`: buy→BOT,
sell→SLD, anything else leaves the zero value `""`. -/
def fillDirection (d : String) : String :=
  if d = "buy" then "BOT" else if d = "sell" then "SLD" else ""

/-- `Exchange.ExecuteOrder`: fetch the latest data event for the order's
symbol and build a direct fill at its price; the Go body's only return is
`return f, nil`. -/
def Exchange.ExecuteOrder (e : Exchange) (order : Order) (data : DataHandler) :
    ExecResult :=
  match data.latest order.symbol with
  | none => .crash
  | some latest =>
      let commission := e.calculateCommission order.qty latest.price
      let fee := e.calculateExchangeFee
      .success
        { time := order.time
          symbol := order.symbol
          exchange := e.symbol
          qty := order.qty
          price := latest.price
          direction := fillDirection order.direction
          commission := commission
          exchangeFee := fee
          cost := e.calculateCost commission fee } none

/-! ### Portfolio (portfolio.go) -/

/-- A position (its defining file is not under src/; src/portfolio.go reads
the fields `qty` and `marketValue`). Modelled from the spec: "quantity held
(signed), … current market value". -/
structure position where
  qty : ℚ
  marketValue : ℚ
deriving DecidableEq

/-- Modelled from the spec: `position.Create` (not under src/) initialises a
position from its first fill — signed quantity (bought positive, sold
negative), market value marked at the fill price. -/
def position.Create (f : Fill) : position :=
  let signedQty := if f.direction = "BOT" then f.qty else -f.qty
  { qty := signedQty, marketValue := signedQty * f.price }

/-- Modelled from the spec: `position.Update` (not under src/) folds a fill
into an existing position — quantity adjusted by the signed fill quantity,
market value re-marked at the fill price. -/
def position.Update (pos : position) (f : Fill) : position :=
  let qty := pos.qty + (if f.direction = "BOT" then f.qty else -f.qty)
  { qty := qty, marketValue := qty * f.price }

/-- `Portfolio`: initial cash, current cash, symbol→position holdings
(the Go map is modelled as an association list with unique keys),
append-only transaction log. -/
structure Portfolio where
  initialCash : ℚ
  cash : ℚ
  holdings : List (String × position)
  transactions : List Fill

/-- Go map indexing `p.holdings[sym]`: the stored position, or the zero
value `position{}` when the key is absent (also covering the nil map). -/
def holdingsGet (h : List (String × position)) (sym : String) : position :=
  (h.lookup sym).getD ⟨0, 0⟩

/-- Replace the position stored under `sym` (assignment to an existing key
of the Go map). -/
def setHolding (h : List (String × position)) (sym : String) (pos : position) :
    List (String × position) :=
  h.map fun kv => if kv.1 = sym then (kv.1, pos) else kv

/-- The error values `Portfolio.OnSignal` can return: "No direction",
"No holdings to sell", "Not enough cash to buy". -/
inductive SigError where
  | noDirection
  | noHoldings
  | noCash
deriving DecidableEq

/-- Outcome of `OnSignal`: in Go `(*Order, error)` — the error returns carry
the zero-value order `&Order{}`; `crash` marks the nil dereference of
`data.Latest(...).LatestPrice()` when the feed has no data for the symbol. -/
inductive SigResult where
  | crash
  | result (order : Order) (err : Option SigError)
deriving DecidableEq

/-- Whether a `SigResult` is a return with a non-nil error. -/
def SigResult.isErr : SigResult → Bool
  | .result _ (some _) => true
  | _ => false

/-- The zero value `&Order{}` returned on every error path of `OnSignal`. -/
def emptyOrder : Order :=
  { time := 0, symbol := "", direction := "", qty := 0, orderType := "", limit := 0 }

/-- `Portfolio.OnSignal`: reject an empty direction, then read current
quantity, cash and latest price, reject dust sells (`currQty <= 0.2`) and
unaffordable buys (`currCash <= 0.2*currPrice`), otherwise emit a market
order of quantity 0.2. The latest-price dereference happens before the
sell/buy checks, so a missing price crashes every non-empty-direction call. -/
def Portfolio.OnSignal (p : Portfolio) (signal : Signal) (data : DataHandler) :
    SigResult :=
  if signal.direction = "" then
    .result emptyOrder (some .noDirection)
  else
    match data.latest signal.symbol with
    | none => .crash
    | some latest =>
        let currQty := (holdingsGet p.holdings signal.symbol).qty
        let currCash := p.cash
        let currPrice := latest.price
        if signal.direction = "sell" ∧ currQty ≤ 0.2 then
          .result emptyOrder (some .noHoldings)
        else if signal.direction = "buy" ∧ currCash ≤ 0.2 * currPrice then
          .result emptyOrder (some .noCash)
        else
          .result
            { time := signal.time
              symbol := signal.symbol
              direction := signal.direction
              qty := 0.2
              orderType := "MKT"
              limit := 0 } none

/-- `Portfolio.OnFill`: create or update the position for the fill's symbol,
subtract the net value from cash for a "BOT" fill and add it otherwise,
append the fill to the transaction log. Returns the updated portfolio (the
Go method mutates the receiver and returns the fill unchanged). -/
def Portfolio.OnFill (p : Portfolio) (f : Fill) : Portfolio :=
  let holdings :=
    match (p.holdings.lookup f.symbol : Option position) with
    | some pos => setHolding p.holdings f.symbol (pos.Update f)
    | none => p.holdings ++ [(f.symbol, position.Create f)]
  let cash :=
    if f.direction = "BOT" then p.cash - f.NetValue else p.cash + f.NetValue
  { p with
    holdings := holdings
    cash := cash
    transactions := p.transactions ++ [f] }

/-- `Portfolio.Reset`: `p.cash = 0; p.transactions = nil` (the holdings line
is commented out in the source, and `initialCash` is untouched). -/
def Portfolio.Reset (p : Portfolio) : Portfolio :=
  { p with cash := 0, transactions := [] }

/-- `Portfolio.Value`: fold the decimal market values of all holdings,
add cash, round to 4 decimals. -/
def Portfolio.Value (p : Portfolio) : ℚ :=
  let holdingValue := p.holdings.foldl (fun acc kv => acc + kv.2.marketValue) 0
  roundDec 4 (p.cash + holdingValue)

/-! ### Statistic (statistic source file) -/

/-- One point of the equity curve (`equityPoint`). -/
structure equityPoint where
  timestamp : ℤ
  equity : ℚ
  equityReturn : ℚ
  drawdown : ℚ
deriving DecidableEq

/-- The zero value `equityPoint{}`. -/
def zeroPoint : equityPoint :=
  { timestamp := 0, equity := 0, equityReturn := 0, drawdown := 0 }

/-- `Statistic`: the equity curve plus the running high- and low-water
points (the event/transaction history lists play no part in the statistics
computations and are not modelled). -/
structure Statistic where
  equity : List equityPoint
  high : equityPoint
  low : equityPoint
deriving DecidableEq

/-- A fresh `Statistic{}`: empty curve, zero-valued watermarks. -/
def initialStatistic : Statistic :=
  { equity := [], high := zeroPoint, low := zeroPoint }

/-- `Statistic.lastEquityPoint`: the final point of the curve, if any. -/
def Statistic.lastEquityPoint (s : Statistic) : Option equityPoint :=
  s.equity.getLast?

/-- `Statistic.calcEquityReturn`: return relative to the last equity point —
0 with no predecessor, 1 when the predecessor's equity is zero, otherwise
`(current − last)/last` rounded to `DP` decimals. -/
def Statistic.calcEquityReturn (s : Statistic) (e : equityPoint) : equityPoint :=
  match s.lastEquityPoint with
  | none => { e with equityReturn := 0 }
  | some last =>
      if last.equity = 0 then
        { e with equityReturn := 1 }
      else
        { e with equityReturn := roundDec DP ((e.equity - last.equity) / last.equity) }

/-- `Statistic.calcDrawdown`: drawdown relative to the running high — 0 when
the high is still zero or the point is at or above the high, otherwise
`(equity − high)/high` rounded to `DP` decimals. -/
def Statistic.calcDrawdown (s : Statistic) (e : equityPoint) : equityPoint :=
  if s.high.equity = 0 then
    { e with drawdown := 0 }
  else if s.high.equity ≤ e.equity then
    { e with drawdown := 0 }
  else
    { e with drawdown := roundDec DP ((e.equity - s.high.equity) / s.high.equity) }

/-- The equity point `Statistic.Update` builds for timestamp `t` and
portfolio value `v`: the fresh point, with return and drawdown filled in
only when the curve is nonempty. -/
def Statistic.newPoint (s : Statistic) (t : ℤ) (v : ℚ) : equityPoint :=
  let e : equityPoint := { timestamp := t, equity := v, equityReturn := 0, drawdown := 0 }
  let e := if 0 < s.equity.length then s.calcEquityReturn e else e
  if 0 < s.equity.length then s.calcDrawdown e else e

/-- `Statistic.Update` on a data event with timestamp `t` and portfolio
value `v` (`d.GetTime()` and `p.Value()` in Go): build the new point, move
the high/low watermarks when the new equity is at or beyond them, append
the point to the curve. -/
def Statistic.Update (s : Statistic) (t : ℤ) (v : ℚ) : Statistic :=
  let e := s.newPoint t v
  { equity := s.equity ++ [e]
    high := if s.high.equity ≤ e.equity then e else s.high
    low := if e.equity ≤ s.low.equity then e else s.low }

/-- Run a sequence of `Update` calls, each given as a (timestamp, value)
pair, from a starting state. -/
def runUpdates (s : Statistic) (inputs : List (ℤ × ℚ)) : Statistic :=
  inputs.foldl (fun s p => s.Update p.1 p.2) s

/-! ### Risk ratios (gonum `stat.Mean` / `stat.MeanStdDev` / `stat.StdDev`)

The Go ratio code works on float64; it is modelled over the reals. -/

/-- `stat.Mean`: arithmetic mean of a list (`0` for the empty list under
real division-by-zero conventions). -/
noncomputable def listMean (l : List ℝ) : ℝ :=
  l.sum / l.length

/-- Sample variance as `stat.MeanStdDev`/`stat.StdDev` compute it: squared
deviations from the mean, divided by `n − 1`. -/
noncomputable def listVariance (l : List ℝ) : ℝ :=
  ((l.map fun x => (x - listMean l) ^ 2).sum) / ((l.length : ℝ) - 1)

/-- Sample standard deviation. -/
noncomputable def listStdDev (l : List ℝ) : ℝ :=
  Real.sqrt (listVariance l)

/-- The per-step return series read off the equity curve (`equityReturns`
in `SharpRatio`/`SortinoRatio`). -/
def Statistic.returnsList (s : Statistic) : List ℝ :=
  s.equity.map fun e => (e.equityReturn : ℝ)

/-- `Statistic.SharpRatio`: `(mean(returns) − riskfree) / stddev(returns)`. -/
noncomputable def Statistic.SharpRatio (s : Statistic) (riskfree : ℚ) : ℝ :=
  (listMean s.returnsList - (riskfree : ℝ)) / listStdDev s.returnsList

/-- `Statistic.SortinoRatio`: `(mean(returns) − riskfree)` divided by the
standard deviation of the strictly negative returns only. -/
noncomputable def Statistic.SortinoRatio (s : Statistic) (riskfree : ℚ) : ℝ :=
  let equityReturns := s.returnsList
  let negReturns := equityReturns.filter fun v => decide (v < 0)
  (listMean equityReturns - (riskfree : ℝ)) / listStdDev negReturns

/-- Shift every per-step return of the recorded equity curve by `c`
(the transformed series the spec's shift-invariance property feeds back
into the ratio computations). -/
def shiftReturns (c : ℚ) (s : Statistic) : Statistic :=
  { s with equity := s.equity.map fun e => { e with equityReturn := e.equityReturn + c } }

/-! ### Helper lemmas -/

theorem foldl_add_marketValue (l : List (String × position)) (init : ℚ) :
    l.foldl (fun acc kv => acc + kv.2.marketValue) init =
      init + (l.map fun kv => kv.2.marketValue).sum := by
  induction l generalizing init with
  | nil => simp
  | cons a as ih =>
      rw [List.foldl_cons, ih, List.map_cons, List.sum_cons]
      ring

theorem roundDec_nonpos (dp : ℕ) {x : ℚ} (hx : x ≤ 0) : roundDec dp x ≤ 0 := by
  have hy : x * 10 ^ dp ≤ 0 :=
    mul_nonpos_of_nonpos_of_nonneg hx (by positivity)
  have hfloor : roundHalfAway (x * 10 ^ dp) ≤ 0 := by
    unfold roundHalfAway
    split_ifs with h
    · have hz : x * 10 ^ dp = 0 := le_antisymm hy h
      rw [hz]
      norm_num
    · have hpos : (0:ℚ) ≤ -(x * 10 ^ dp) + 1/2 := by
        push_neg at h
        linarith
      have := Int.floor_nonneg.mpr hpos
      omega
  unfold roundDec
  apply div_nonpos_of_nonpos_of_nonneg
  · exact_mod_cast hfloor
  · positivity

/-! ### Claim theorems: Exchange and Portfolio -/

/-- C1: For every portfolio state, `Value()` equals the current cash plus
the sum of the market values of all held positions, in exact (fixed-decimal)
arithmetic, rounded to 4 decimal places. -/
theorem portfolio_value_eq_cash_add_market_values (p : Portfolio) :
    p.Value = roundDec 4 (p.cash + (p.holdings.map fun kv => kv.2.marketValue).sum) := by
  unfold Portfolio.Value
  rw [foldl_add_marketValue]
  norm_num

/-- C5: The commission on a fill is
`floor(qty × price × commissionRate × 10^4) / 10^4` (truncated, not rounded,
to 4 decimals); at qty 100, price 10, rate 0.0025 it is exactly 2.5. -/
theorem commission_is_truncated_to_4_decimals (e : Exchange) (qty price : ℚ) :
    e.calculateCommission qty price =
        (⌊qty * price * e.commissionRate * 10 ^ 4⌋ : ℚ) / 10 ^ 4
      ∧ Exchange.calculateCommission ⟨"poloniex", 0, 0.0025⟩ 100 10 = 2.5 := by
  constructor
  · norm_num [Exchange.calculateCommission]
  · norm_num [Exchange.calculateCommission]

/-- C9: `Portfolio.Reset` zeroes the current cash and empties the
transaction log while leaving the initial-cash configuration and the
holdings map unchanged. -/
theorem reset_clears_cash_and_log_only (p : Portfolio) :
    p.Reset.cash = 0 ∧ p.Reset.transactions = [] ∧
      p.Reset.initialCash = p.initialCash ∧ p.Reset.holdings = p.holdings :=
  ⟨rfl, rfl, rfl, rfl⟩

/-- C6: `Portfolio.OnFill` changes cash by exactly the net fill value
`price×qty+cost` — subtracted for a "BOT" fill, added otherwise (in
particular for "SLD"); concretely, cash 1000 plus a buy fill of qty 0.2 at
price 100 with commission 0.05 and fee 0 leaves cash at 979.95. -/
theorem onFill_cash_changes_by_net_value (p : Portfolio) (f : Fill) :
    ((p.OnFill f).cash =
        if f.direction = "BOT" then p.cash - (f.price * f.qty + f.cost)
        else p.cash + (f.price * f.qty + f.cost))
      ∧ (Portfolio.OnFill ⟨1000, 1000, [], []⟩
            ⟨0, "USDT-ETH", "poloniex", 0.2, 100, "BOT", 0.05, 0, 0.05⟩).cash
          = 979.95 := by
  constructor
  · unfold Portfolio.OnFill Fill.NetValue
    split_ifs <;> rfl
  · norm_num [Portfolio.OnFill, Fill.NetValue]

/-- C2 (counterexample): on a feed that holds no price for the order's
symbol, `ExecuteOrder` does not return a `NoPriceData` error — the latest
price dereference crashes, and no error-carrying return is produced. -/
theorem executeOrder_missing_price_returns_no_error :
    Exchange.ExecuteOrder ⟨"poloniex", 0, 0.0025⟩
        ⟨0, "USDT-ETH", "buy", 0.2, "MKT", 0⟩ ⟨fun _ => none⟩ = .crash
      ∧ (Exchange.ExecuteOrder ⟨"poloniex", 0, 0.0025⟩
            ⟨0, "USDT-ETH", "buy", 0.2, "MKT", 0⟩ ⟨fun _ => none⟩).isErr = false :=
  ⟨rfl, rfl⟩

/-- C2 (amended): when the feed has a latest price for the order's symbol,
`ExecuteOrder` returns a fill at that price with a nil error; when it has
none, the function does not return a `NoPriceData` error — the nil latest
event is dereferenced (crash). -/
theorem executeOrder_fills_at_latest_price :
    (∀ (e : Exchange) (order : Order) (data : DataHandler) (latest : DataEvent),
        data.latest order.symbol = some latest →
        e.ExecuteOrder order data =
          .success
            ⟨order.time, order.symbol, e.symbol, order.qty, latest.price,
              fillDirection order.direction,
              e.calculateCommission order.qty latest.price, e.exchangeFee,
              e.calculateCommission order.qty latest.price + e.exchangeFee⟩ none)
      ∧ (∀ (e : Exchange) (order : Order) (data : DataHandler),
          data.latest order.symbol = none → e.ExecuteOrder order data = .crash) := by
  constructor
  · intro e order data latest h
    unfold Exchange.ExecuteOrder
    rw [h]
    rfl
  · intro e order data h
    unfold Exchange.ExecuteOrder
    rw [h]

/-- C2 witness: the amended theorem applied at a concrete exchange, order
and feed. -/
theorem executeOrder_fills_at_latest_price_witness :
    Exchange.ExecuteOrder ⟨"poloniex", 0, 0.0025⟩
        ⟨0, "USDT-ETH", "buy", 0.2, "MKT", 0⟩
        ⟨fun _ => some ⟨0, "USDT-ETH", 100⟩⟩ =
      .success
        ⟨0, "USDT-ETH", "poloniex", 0.2, 100, fillDirection "buy",
          Exchange.calculateCommission ⟨"poloniex", 0, 0.0025⟩ 0.2 100, 0,
          Exchange.calculateCommission ⟨"poloniex", 0, 0.0025⟩ 0.2 100 + 0⟩ none :=
  executeOrder_fills_at_latest_price.1 ⟨"poloniex", 0, 0.0025⟩
    ⟨0, "USDT-ETH", "buy", 0.2, "MKT", 0⟩
    ⟨fun _ => some ⟨0, "USDT-ETH", 100⟩⟩ ⟨0, "USDT-ETH", 100⟩ rfl

/-- Reduction of `OnSignal` when the direction is non-empty and the feed has
a latest price: only the sell/buy checks remain. -/
theorem onSignal_reduce (p : Portfolio) (signal : Signal) (data : DataHandler)
    (latest : DataEvent) (h : data.latest signal.symbol = some latest)
    (h1 : ¬ signal.direction = "") :
    p.OnSignal signal data =
      (if signal.direction = "sell" ∧ (holdingsGet p.holdings signal.symbol).qty ≤ 0.2 then
        .result emptyOrder (some .noHoldings)
      else if signal.direction = "buy" ∧ p.cash ≤ 0.2 * latest.price then
        .result emptyOrder (some .noCash)
      else
        .result
          ⟨signal.time, signal.symbol, signal.direction, 0.2, "MKT", 0⟩ none) := by
  unfold Portfolio.OnSignal
  rw [if_neg h1, h]

/-- C3: given a feed with a latest price for the signal's symbol,
`OnSignal` errors exactly when the direction is empty, or it is "sell" with
held quantity at or below 0.2, or it is "buy" with cash at or below
0.2 × latest price; otherwise it returns a market order of quantity 0.2 and
no error. -/
theorem onSignal_err_iff (p : Portfolio) (signal : Signal) (data : DataHandler)
    (latest : DataEvent) (h : data.latest signal.symbol = some latest) :
    ((p.OnSignal signal data).isErr = true ↔
      signal.direction = "" ∨
        (signal.direction = "sell" ∧ (holdingsGet p.holdings signal.symbol).qty ≤ 0.2) ∨
        (signal.direction = "buy" ∧ p.cash ≤ 0.2 * latest.price))
    ∧ (¬(signal.direction = "" ∨
          (signal.direction = "sell" ∧ (holdingsGet p.holdings signal.symbol).qty ≤ 0.2) ∨
          (signal.direction = "buy" ∧ p.cash ≤ 0.2 * latest.price)) →
        p.OnSignal signal data =
          .result ⟨signal.time, signal.symbol, signal.direction, 0.2, "MKT", 0⟩ none) := by
  by_cases h1 : signal.direction = ""
  · refine ⟨?_, fun hc => absurd (Or.inl h1) hc⟩
    unfold Portfolio.OnSignal
    rw [if_pos h1]
    simp [SigResult.isErr, h1]
  · rw [onSignal_reduce p signal data latest h h1]
    by_cases h2 : signal.direction = "sell" ∧ (holdingsGet p.holdings signal.symbol).qty ≤ 0.2
    · rw [if_pos h2]
      exact ⟨⟨fun _ => Or.inr (Or.inl h2), fun _ => rfl⟩,
        fun hc => absurd (Or.inr (Or.inl h2)) hc⟩
    · rw [if_neg h2]
      by_cases h3 : signal.direction = "buy" ∧ p.cash ≤ 0.2 * latest.price
      · rw [if_pos h3]
        exact ⟨⟨fun _ => Or.inr (Or.inr h3), fun _ => rfl⟩,
          fun hc => absurd (Or.inr (Or.inr h3)) hc⟩
      · rw [if_neg h3]
        refine ⟨⟨fun hfalse => ?_, fun hd => absurd hd (by tauto)⟩, fun _ => rfl⟩
        exact absurd hfalse (by simp [SigResult.isErr])

/-- C3 witness: an affordable buy signal on a funded portfolio yields the
0.2-quantity market order and no error. -/
theorem onSignal_err_iff_witness :
    Portfolio.OnSignal ⟨1000, 1000, [], []⟩ ⟨0, "USDT-ETH", "buy"⟩
        ⟨fun _ => some ⟨0, "USDT-ETH", 100⟩⟩ =
      .result ⟨0, "USDT-ETH", "buy", 0.2, "MKT", 0⟩ none :=
  (onSignal_err_iff ⟨1000, 1000, [], []⟩ ⟨0, "USDT-ETH", "buy"⟩
      ⟨fun _ => some ⟨0, "USDT-ETH", 100⟩⟩ ⟨0, "USDT-ETH", 100⟩ rfl).2
    (by norm_num +decide)

/-! ### Claim theorems: Statistic invariants -/

/-- `calcEquityReturn` leaves the `equity` field unchanged. -/
theorem calcEquityReturn_equity (s : Statistic) (e : equityPoint) :
    (s.calcEquityReturn e).equity = e.equity := by
  unfold Statistic.calcEquityReturn
  cases s.lastEquityPoint with
  | none => rfl
  | some last => dsimp only; split_ifs <;> rfl

/-- `calcEquityReturn` leaves the `drawdown` field unchanged. -/
theorem calcEquityReturn_drawdown (s : Statistic) (e : equityPoint) :
    (s.calcEquityReturn e).drawdown = e.drawdown := by
  unfold Statistic.calcEquityReturn
  cases s.lastEquityPoint with
  | none => rfl
  | some last => dsimp only; split_ifs <;> rfl

/-- `calcDrawdown` leaves the `equity` field unchanged. -/
theorem calcDrawdown_equity (s : Statistic) (e : equityPoint) :
    (s.calcDrawdown e).equity = e.equity := by
  unfold Statistic.calcDrawdown
  split_ifs <;> rfl

/-- `calcDrawdown` leaves the `equityReturn` field unchanged. -/
theorem calcDrawdown_equityReturn (s : Statistic) (e : equityPoint) :
    (s.calcDrawdown e).equityReturn = e.equityReturn := by
  unfold Statistic.calcDrawdown
  split_ifs <;> rfl

/-- The point built by `Update` carries the given portfolio value. -/
theorem newPoint_equity (s : Statistic) (t : ℤ) (v : ℚ) :
    (s.newPoint t v).equity = v := by
  unfold Statistic.newPoint
  split_ifs <;> simp [calcDrawdown_equity, calcEquityReturn_equity]

/-- With a nonnegative high-water equity, `calcDrawdown` never assigns a
positive drawdown. -/
theorem calcDrawdown_nonpos (s : Statistic) (e : equityPoint)
    (hh : 0 ≤ s.high.equity) : (s.calcDrawdown e).drawdown ≤ 0 := by
  unfold Statistic.calcDrawdown
  split_ifs with h1 h2
  · exact le_refl 0
  · exact le_refl 0
  · dsimp only
    apply roundDec_nonpos
    apply div_nonpos_of_nonpos_of_nonneg
    · push_neg at h2
      linarith
    · exact hh

/-- The point built by `Update` has nonpositive drawdown whenever the
high-water equity is nonnegative. -/
theorem newPoint_drawdown_nonpos (s : Statistic) (t : ℤ) (v : ℚ)
    (hh : 0 ≤ s.high.equity) : (s.newPoint t v).drawdown ≤ 0 := by
  unfold Statistic.newPoint
  split_ifs with h
  · exact calcDrawdown_nonpos _ _ hh
  · rfl

/-- At or above the high-water equity, `calcDrawdown` assigns drawdown 0. -/
theorem calcDrawdown_zero_of_ge (s : Statistic) (e : equityPoint)
    (hv : s.high.equity ≤ e.equity) : (s.calcDrawdown e).drawdown = 0 := by
  unfold Statistic.calcDrawdown
  by_cases h1 : s.high.equity = 0
  · rw [if_pos h1]
  · rw [if_neg h1, if_pos hv]

/-- The point built by `Update` has drawdown 0 when its value is at or
above the high-water equity. -/
theorem newPoint_drawdown_zero_of_ge (s : Statistic) (t : ℤ) (v : ℚ)
    (hv : s.high.equity ≤ v) : (s.newPoint t v).drawdown = 0 := by
  unfold Statistic.newPoint
  split_ifs with h
  · apply calcDrawdown_zero_of_ge
    rw [calcEquityReturn_equity]
    exact hv
  · rfl

/-- Reachability invariant of `Statistic`: the high-water equity is
nonnegative and every recorded drawdown is nonpositive. -/
def StatInv (s : Statistic) : Prop :=
  0 ≤ s.high.equity ∧ ∀ e ∈ s.equity, e.drawdown ≤ 0

/-- The invariant holds initially. -/
theorem statInv_initial : StatInv initialStatistic :=
  ⟨le_refl 0, fun e he => absurd he (List.not_mem_nil e)⟩

/-- `Update` preserves the invariant. -/
theorem statInv_update (s : Statistic) (t : ℤ) (v : ℚ) (h : StatInv s) :
    StatInv (s.Update t v) := by
  obtain ⟨hh, hpts⟩ := h
  constructor
  · show 0 ≤ (if s.high.equity ≤ (s.newPoint t v).equity then s.newPoint t v else s.high).equity
    split_ifs with hcmp
    · calc (0:ℚ) ≤ s.high.equity := hh
        _ ≤ (s.newPoint t v).equity := hcmp
    · exact hh
  · intro e he
    rw [show (s.Update t v).equity = s.equity ++ [s.newPoint t v] from rfl] at he
    rcases List.mem_append.mp he with h1 | h1
    · exact hpts e h1
    · rw [List.mem_singleton.mp h1]
      exact newPoint_drawdown_nonpos s t v hh

/-- Any run of updates preserves the invariant. -/
theorem statInv_runUpdates (inputs : List (ℤ × ℚ)) (s : Statistic) (h : StatInv s) :
    StatInv (runUpdates s inputs) := by
  induction inputs generalizing s with
  | nil => exact h
  | cons a as ih => exact ih (s.Update a.1 a.2) (statInv_update s a.1 a.2 h)

/-- With a nonempty curve, the new point goes through both calc steps. -/
theorem newPoint_of_nonempty (s : Statistic) (t : ℤ) (v : ℚ)
    (h : 0 < s.equity.length) :
    s.newPoint t v = s.calcDrawdown (s.calcEquityReturn ⟨t, v, 0, 0⟩) := by
  unfold Statistic.newPoint
  rw [if_pos h, if_pos h]

/-- Reduction of `calcEquityReturn` when the last point is known. -/
theorem calcEquityReturn_of_last (s : Statistic) (e prev : equityPoint)
    (h : s.equity.getLast? = some prev) :
    s.calcEquityReturn e =
      (if prev.equity = 0 then { e with equityReturn := 1 }
       else { e with equityReturn := roundDec DP ((e.equity - prev.equity) / prev.equity) }) := by
  unfold Statistic.calcEquityReturn Statistic.lastEquityPoint
  rw [h]

/-- C4: starting from the initial `Statistic`, every recorded equity point
has drawdown ≤ 0, and a point whose equity is at or above the running
high-water equity gets drawdown exactly 0 and becomes the new high-water
point (it is the point appended by that `Update`). -/
theorem statistic_drawdown_nonpos_and_high_reset (inputs : List (ℤ × ℚ)) (t : ℤ) (v : ℚ) :
    (∀ e ∈ (runUpdates initialStatistic inputs).equity, e.drawdown ≤ 0)
    ∧ ((runUpdates initialStatistic inputs).high.equity ≤ v →
        ((runUpdates initialStatistic inputs).Update t v).equity.getLast? =
            some ((runUpdates initialStatistic inputs).newPoint t v)
          ∧ ((runUpdates initialStatistic inputs).Update t v).high =
              (runUpdates initialStatistic inputs).newPoint t v
          ∧ ((runUpdates initialStatistic inputs).newPoint t v).drawdown = 0
          ∧ ((runUpdates initialStatistic inputs).newPoint t v).equity = v) := by
  have hinv := statInv_runUpdates inputs initialStatistic statInv_initial
  refine ⟨hinv.2, fun hv =>
    ⟨?_, ?_, newPoint_drawdown_zero_of_ge _ t v hv, newPoint_equity _ t v⟩⟩
  · exact List.getLast?_concat _
  · show (if (runUpdates initialStatistic inputs).high.equity ≤
        ((runUpdates initialStatistic inputs).newPoint t v).equity then _ else _) = _
    rw [if_pos]
    rw [newPoint_equity]
    exact hv

/-- C4 witness: after the run `[(0, 5)]`, the recorded point has drawdown
≤ 0, and updating with value 7 ≥ high 5 appends a drawdown-0 point that
replaces the high-water point. -/
theorem statistic_drawdown_nonpos_and_high_reset_witness :
    (equityPoint.mk 0 5 0 0).drawdown ≤ 0
    ∧ (((runUpdates initialStatistic [((0:ℤ), (5:ℚ))]).Update 1 7).equity.getLast? =
          some ((runUpdates initialStatistic [((0:ℤ), (5:ℚ))]).newPoint 1 7)
        ∧ ((runUpdates initialStatistic [((0:ℤ), (5:ℚ))]).Update 1 7).high =
            (runUpdates initialStatistic [((0:ℤ), (5:ℚ))]).newPoint 1 7
        ∧ ((runUpdates initialStatistic [((0:ℤ), (5:ℚ))]).newPoint 1 7).drawdown = 0
        ∧ ((runUpdates initialStatistic [((0:ℤ), (5:ℚ))]).newPoint 1 7).equity = 7) :=
  ⟨(statistic_drawdown_nonpos_and_high_reset [((0:ℤ), (5:ℚ))] 1 7).1 ⟨0, 5, 0, 0⟩
      (by norm_num [runUpdates, initialStatistic, Statistic.Update, Statistic.newPoint]),
   (statistic_drawdown_nonpos_and_high_reset [((0:ℤ), (5:ℚ))] 1 7).2
      (by norm_num [runUpdates, initialStatistic, Statistic.Update, Statistic.newPoint, zeroPoint])⟩

/-- A run of strictly positive equity values never moves a zero low-water
point. -/
theorem low_runUpdates (inputs : List (ℤ × ℚ)) (s : Statistic)
    (hlow : s.low = zeroPoint) (hpos : ∀ p ∈ inputs, 0 < p.2) :
    (runUpdates s inputs).low = zeroPoint := by
  induction inputs generalizing s with
  | nil => exact hlow
  | cons a as ih =>
      apply ih
      · show (if (s.newPoint a.1 a.2).equity ≤ s.low.equity then _ else s.low) = zeroPoint
        rw [if_neg, hlow]
        rw [newPoint_equity, hlow]
        show ¬ a.2 ≤ (0:ℚ)
        exact not_le.mpr (hpos a (List.mem_cons_self a as))
      · intro p hp
        exact hpos p (List.mem_cons_of_mem a hp)

/-- C10: the low-water point starts as the zero point, is kept whenever the
new equity is not at or below the current low-water equity, and stays the
zero point over any run whose recorded equities are all strictly positive. -/
theorem low_water_stays_at_zero_point :
    initialStatistic.low = zeroPoint
    ∧ (∀ (s : Statistic) (t : ℤ) (v : ℚ), ¬ v ≤ s.low.equity → (s.Update t v).low = s.low)
    ∧ (∀ inputs : List (ℤ × ℚ), (∀ p ∈ inputs, 0 < p.2) →
        (runUpdates initialStatistic inputs).low = zeroPoint) := by
  refine ⟨rfl, fun s t v hv => ?_, fun inputs hpos => low_runUpdates inputs _ rfl hpos⟩
  show (if (s.newPoint t v).equity ≤ s.low.equity then _ else s.low) = s.low
  rw [if_neg]
  rw [newPoint_equity]
  exact hv

/-- C10 witness: the claim applied to an update with value 7 > 0 and to the
one-step run `[(0, 5)]`. -/
theorem low_water_stays_at_zero_point_witness :
    (Statistic.Update initialStatistic 0 7).low = initialStatistic.low
    ∧ (runUpdates initialStatistic [((0:ℤ), (5:ℚ))]).low = zeroPoint :=
  ⟨low_water_stays_at_zero_point.2.1 initialStatistic 0 7 (by norm_num [initialStatistic, zeroPoint]),
   low_water_stays_at_zero_point.2.2 [((0:ℤ), (5:ℚ))] (by norm_num)⟩

/-- C8: when a previous equity point exists, the point appended by `Update`
has return 1 if the previous equity is exactly zero, and
`(current − previous)/previous` rounded to `DP` decimals otherwise. -/
theorem zero_prev_equity_gives_return_one (s : Statistic) (t : ℤ) (v : ℚ) (prev : equityPoint)
    (h : s.equity.getLast? = some prev) :
    (s.Update t v).equity.getLast? = some (s.newPoint t v)
    ∧ (prev.equity = 0 → (s.newPoint t v).equityReturn = 1)
    ∧ (prev.equity ≠ 0 →
        (s.newPoint t v).equityReturn = roundDec DP ((v - prev.equity) / prev.equity)) := by
  have hne : s.equity ≠ [] := by
    intro hnil
    rw [hnil] at h
    exact Option.noConfusion h
  have hlen : 0 < s.equity.length := List.length_pos.mpr hne
  refine ⟨List.getLast?_concat _, ?_, ?_⟩
  · intro h0
    rw [newPoint_of_nonempty s t v hlen, calcDrawdown_equityReturn,
      calcEquityReturn_of_last s _ prev h, if_pos h0]
  · intro h0
    rw [newPoint_of_nonempty s t v hlen, calcDrawdown_equityReturn,
      calcEquityReturn_of_last s _ prev h, if_neg h0]

/-- C8 witness: updating past a zero-equity point yields return 1. -/
theorem zero_prev_equity_gives_return_one_witness :
    (Statistic.Update ⟨[⟨0, 0, 0, 0⟩], zeroPoint, zeroPoint⟩ 1 5).equity.getLast? =
        some (Statistic.newPoint ⟨[⟨0, 0, 0, 0⟩], zeroPoint, zeroPoint⟩ 1 5)
    ∧ (Statistic.newPoint ⟨[⟨0, 0, 0, 0⟩], zeroPoint, zeroPoint⟩ 1 5).equityReturn = 1 :=
  ⟨(zero_prev_equity_gives_return_one ⟨[⟨0, 0, 0, 0⟩], zeroPoint, zeroPoint⟩ 1 5 ⟨0, 0, 0, 0⟩ rfl).1,
   (zero_prev_equity_gives_return_one ⟨[⟨0, 0, 0, 0⟩], zeroPoint, zeroPoint⟩ 1 5 ⟨0, 0, 0, 0⟩ rfl).2.1 rfl⟩

/-! ### Claim theorems: risk ratios -/

/-- Shifting every element of a list shifts its sum by `length * c`. -/
theorem sum_map_add_const (l : List ℝ) (c : ℝ) :
    (l.map fun x => x + c).sum = l.sum + l.length * c := by
  induction l with
  | nil => simp
  | cons a as ih =>
      simp [ih]
      ring

/-- Shifting every element of a nonempty list shifts its mean by `c`. -/
theorem listMean_map_add (l : List ℝ) (c : ℝ) (h : l ≠ []) :
    listMean (l.map fun x => x + c) = listMean l + c := by
  have hn : (l.length : ℝ) ≠ 0 := by
    exact_mod_cast fun h0 => h (List.length_eq_zero.mp h0)
  unfold listMean
  rw [List.length_map, sum_map_add_const]
  field_simp
  ring

/-- The sample variance is invariant under a uniform shift. -/
theorem listVariance_map_add (l : List ℝ) (c : ℝ) :
    listVariance (l.map fun x => x + c) = listVariance l := by
  rcases eq_or_ne l [] with rfl | h
  · rfl
  · unfold listVariance
    rw [List.length_map, listMean_map_add l c h, List.map_map]
    have hfun : ((fun x => (x - (listMean l + c)) ^ 2) ∘ fun x => x + c) =
        fun x => (x - listMean l) ^ 2 := by
      funext x
      simp only [Function.comp]
      ring
    rw [hfun]

/-- C7 (amended, Sharpe part): shifting every per-step return and the
risk-free rate by the same constant leaves the Sharpe ratio unchanged. -/
theorem sharpe_ratio_shift_invariant (s : Statistic) (c rf : ℚ) :
    (shiftReturns c s).SharpRatio (rf + c) = s.SharpRatio rf := by
  have hmap : (shiftReturns c s).returnsList = s.returnsList.map fun x => x + (c : ℝ) := by
    unfold Statistic.returnsList shiftReturns
    simp only [List.map_map]
    congr 1
    funext e
    simp only [Function.comp]
    push_cast
    ring
  unfold Statistic.SharpRatio listStdDev
  rw [hmap, listVariance_map_add]
  rcases eq_or_ne s.returnsList [] with h | h
  · have hv : listVariance ([] : List ℝ) = 0 := by
      norm_num [listVariance]
    rw [h]
    simp [listMean, hv]
  · rw [listMean_map_add _ _ h]
    congr 1
    push_cast
    ring

/-- C7 (counterexample, Sortino part): on the equity curve with returns
[−1, −3], shifting returns and risk-free rate by 4 changes the Sortino
ratio — the shift empties the strictly-negative-return subset used for the
downside deviation, so the ratio moves from −2/√2 to 0 (division by a zero
deviation). -/
theorem sortino_ratio_not_shift_invariant :
    Statistic.SortinoRatio
        (shiftReturns 4 ⟨[⟨0, 0, -1, 0⟩, ⟨1, 0, -3, 0⟩], zeroPoint, zeroPoint⟩) (0 + 4) ≠
      Statistic.SortinoRatio ⟨[⟨0, 0, -1, 0⟩, ⟨1, 0, -3, 0⟩], zeroPoint, zeroPoint⟩ 0 := by
  have hL : Statistic.SortinoRatio
      (shiftReturns 4 ⟨[⟨0, 0, -1, 0⟩, ⟨1, 0, -3, 0⟩], zeroPoint, zeroPoint⟩) (0 + 4) = 0 := by
    unfold Statistic.SortinoRatio Statistic.returnsList shiftReturns
    norm_num [List.filter, listStdDev, listVariance, listMean]
  have hR : Statistic.SortinoRatio ⟨[⟨0, 0, -1, 0⟩, ⟨1, 0, -3, 0⟩], zeroPoint, zeroPoint⟩ 0 =
      (-2) / Real.sqrt 2 := by
    unfold Statistic.SortinoRatio Statistic.returnsList
    norm_num [List.filter, listStdDev, listVariance, listMean]
  rw [hL, hR]
  have h2 : Real.sqrt 2 ≠ 0 := Real.sqrt_ne_zero'.mpr (by norm_num)
  intro hc
  exact (div_ne_zero (by norm_num) h2) hc.symm

end Backtest
